import Mathlib

/-!
Verification development for the clinical-assertion BERT serving code:
a shallow embedding of app/model.py (adapter state, load_model, predict,
predict_batch, is_model_loaded), app/schemas.py (request validation) and
app/main.py (endpoint handlers), with theorems settling the spec claims.

The external pretrained model and tokenizer are opaque collaborators: we
represent them as records of functions (token encoding, per-row logits,
label table), and the exponential used by softmax as an arbitrary
strictly positive weight function on the rationals, so every numeric
fact proved here is exact where the float code is approximate.
-/

namespace ClinicalBert

/-- Opaque HuggingFace tokenizer: a token encoding for each sentence and
the id of the padding token used when padding a batch. -/
structure Tokenizer where
  encode : String → List Nat
  padId : Nat

/-- Opaque pretrained classification model: logits for one (padded) row
of token ids, and the optional id2label table of its configuration. -/
structure HFModel where
  rowLogits : List Nat → List ℚ
  id2label : Option (List (Nat × String))

/-- Compute device selected by torch.device in load_model. -/
inductive Device
  | cuda
  | cpu
deriving DecidableEq, Repr

/-- The four module-level globals of app/model.py. -/
structure AdapterState where
  _model : Option HFModel
  _tokenizer : Option Tokenizer
  _device : Option Device
  _label_mapping : Option (List (Nat × String))

/-- State before any load: every global is None. -/
def initialState : AdapterState := ⟨none, none, none, none⟩

def MODEL_NAME : String := "bvanaken/clinical-assertion-negation-bert"

/-- External world as seen by load_model: whether cuda is available, the
two pretrained fetches, and the result of moving the model to the
device. Each fallible call either succeeds or raises with a message. -/
structure Env where
  cudaAvailable : Bool
  fetchTokenizer : String → Except String Tokenizer
  fetchModel : String → Except String HFModel
  toDevice : Except String Unit

def selectDevice (cudaAvailable : Bool) : Device :=
  if cudaAvailable then Device.cuda else Device.cpu

/-- Fallback mapping used when the model configuration has no id2label. -/
def defaultLabelMapping : List (Nat × String) :=
  [(0, "PRESENT"), (1, "ABSENT"), (2, "CONDITIONAL")]

/-- Embedding of load_model: early return when a model is cached, then
assignments to the globals in source order, raising at the first failed
step. The returned state is the value of the globals when the call
returns or raises, the Except component is its outcome. -/
def load_model (env : Env) (s : AdapterState) : AdapterState × Except String Unit :=
  if s._model.isSome then (s, Except.ok ())
  else
    let s1 : AdapterState := { s with _device := some (selectDevice env.cudaAvailable) }
    match env.fetchTokenizer MODEL_NAME with
    | Except.error e => (s1, Except.error e)
    | Except.ok tok =>
      let s2 : AdapterState := { s1 with _tokenizer := some tok }
      match env.fetchModel MODEL_NAME with
      | Except.error e => (s2, Except.error e)
      | Except.ok m =>
        let s3 : AdapterState := { s2 with _model := some m }
        match env.toDevice with
        | Except.error e => (s3, Except.error e)
        | Except.ok _ =>
          let lm := match m.id2label with
            | some d => if d.isEmpty then defaultLabelMapping else d
            | none => defaultLabelMapping
          ({ s3 with _label_mapping := some lm }, Except.ok ())

/-- Embedding of is_model_loaded: true iff the model global is set. -/
def is_model_loaded (s : AdapterState) : Bool :=
  s._model.isSome

/-- Tokenizer call for one sentence: truncation at max_length 512. -/
def Tokenizer.encodeTrunc (t : Tokenizer) (sentence : String) : List Nat :=
  (t.encode sentence).take 512

/-- Right padding of a row with the pad token up to length len. -/
def padTo (padId : Nat) (len : Nat) (row : List Nat) : List Nat :=
  row ++ List.replicate (len - row.length) padId

/-- Tokenizer call on a batch with truncation and padding: every row is
truncated at 512 then padded to the longest row of the batch. -/
def Tokenizer.tokenizeBatch (t : Tokenizer) (sentences : List String) : List (List Nat) :=
  let rows := sentences.map t.encodeTrunc
  let len := (rows.map List.length).foldr max 0
  rows.map (padTo t.padId len)

/-- Softmax over one row of logits, with the exponential abstracted as a
weight function e: component i is e of logit i over the sum of weights. -/
def softmax (e : ℚ → ℚ) (l : List ℚ) : List ℚ :=
  l.map (fun x => e x / (l.map e).sum)

/-- Maximum of a row of probabilities, as torch.max over the class dim. -/
def maxVal : List ℚ → ℚ
  | [] => 0
  | x :: xs => xs.foldl max x

/-- Index of the first occurrence of a value in a row. -/
def idxOfQ (a : ℚ) : List ℚ → Nat
  | [] => 0
  | x :: xs => if x = a then 0 else idxOfQ a xs + 1

/-- torch.argmax over the class dim: first index holding the maximum. -/
def argmaxIdx (l : List ℚ) : Nat :=
  idxOfQ (maxVal l) l

/-- The dict.get lookup with the UNKNOWN fallback of predict. -/
def lookupLabel (lm : List (Nat × String)) (idx : Nat) : String :=
  match lm.lookup idx with
  | some lab => lab
  | none => "UNKNOWN_" ++ toString idx

/-- Probability row computed by predict for one sentence: softmax of the
logits of its truncated encoding (a batch of one gets no extra pad). -/
def singleProbs (m : HFModel) (tok : Tokenizer) (e : ℚ → ℚ) (x : String) : List ℚ :=
  softmax e (m.rowLogits (tok.encodeTrunc x))

/-- Probability rows computed by predict_batch: one softmax row per
input, over logits of rows padded to the longest row of the batch. -/
def batchProbs (m : HFModel) (tok : Tokenizer) (e : ℚ → ℚ) (xs : List String) :
    List (List ℚ) :=
  (tok.tokenizeBatch xs).map (fun r => softmax e (m.rowLogits r))

/-- Exceptions the embedded inference code can raise. -/
inductive PyErr
  | notLoaded
  | labelMappingNone
  | emptyLogits
deriving DecidableEq, Repr

/-- Message text carried by each exception. -/
def PyErr.message : PyErr → String
  | PyErr.notLoaded => "Model not loaded. Call load_model() first."
  | PyErr.labelMappingNone => "NoneType object has no attribute get"
  | PyErr.emptyLogits => "cannot perform reduction on a tensor with no elements"

/-- Embedding of predict: guard on the model and tokenizer globals, a
batch of one row, softmax, argmax class, its probability as confidence,
then the label lookup. A missing label mapping raises as dict.get on
None does; an empty class dimension raises as torch.argmax does. -/
def predict (e : ℚ → ℚ) (s : AdapterState) (sentence : String) : Except PyErr (String × ℚ) :=
  match s._model, s._tokenizer with
  | some m, some tok =>
    match (tok.tokenizeBatch [sentence]).map (fun r => softmax e (m.rowLogits r)) with
    | [] => Except.error PyErr.emptyLogits
    | probs :: _ =>
      if probs.isEmpty then Except.error PyErr.emptyLogits
      else
        match s._label_mapping with
        | some lm => Except.ok (lookupLabel lm (argmaxIdx probs), probs.getD (argmaxIdx probs) 0)
        | none => Except.error PyErr.labelMappingNone
  | _, _ => Except.error PyErr.notLoaded

/-- Embedding of predict_batch: same guard, the whole batch tokenized
together with padding across it, one softmax row per input, per-row
argmax class and maximum probability, labels looked up in input order. -/
def predict_batch (e : ℚ → ℚ) (s : AdapterState) (sentences : List String) :
    Except PyErr (List (String × ℚ)) :=
  match s._model, s._tokenizer with
  | some m, some tok =>
    let probsRows := batchProbs m tok e sentences
    if probsRows.any List.isEmpty then Except.error PyErr.emptyLogits
    else
      match s._label_mapping with
      | some lm =>
        Except.ok (probsRows.map (fun p => (lookupLabel lm (argmaxIdx p), maxVal p)))
      | none =>
        if sentences.isEmpty then Except.ok [] else Except.error PyErr.labelMappingNone
  | _, _ => Except.error PyErr.notLoaded

/-- A fully loaded adapter state. -/
def loadedState (m : HFModel) (tok : Tokenizer) (d : Device) (lm : List (Nat × String)) :
    AdapterState :=
  ⟨some m, some tok, some d, some lm⟩

/-- Inbound body of POST /predict before validation: the sentence field
may be absent. -/
structure RawSingleBody where
  sentence : Option String

/-- Inbound body of POST /predict/batch before validation: the sentences
field may be absent. -/
structure RawBatchBody where
  sentences : Option (List String)

/-- PredictionRequest validation: the field is required and min_length 1
applies to the string. Returns the validated sentence or rejects. -/
def validateSingle (b : RawSingleBody) : Option String :=
  match b.sentence with
  | some s => if 1 ≤ s.length then some s else none
  | none => none

/-- BatchPredictionRequest validation: the field is required and
min_length 1 applies to the list, not to its elements. -/
def validateBatch (b : RawBatchBody) : Option (List String) :=
  match b.sentences with
  | some xs => if 1 ≤ xs.length then some xs else none
  | none => none

/-- Outcome of the POST /predict handler, one constructor per way the
route can answer. responseInvalid is the response-model rejection of a
score outside the closed unit interval. -/
inductive HttpSingle
  | ok (label : String) (score : ℚ)
  | unprocessable
  | serviceUnavailable (detail : String)
  | internalError (detail : String)
  | responseInvalid

/-- HTTP status code of each POST /predict outcome. -/
def HttpSingle.statusCode : HttpSingle → Nat
  | HttpSingle.ok _ _ => 200
  | HttpSingle.unprocessable => 422
  | HttpSingle.serviceUnavailable _ => 503
  | HttpSingle.internalError _ => 500
  | HttpSingle.responseInvalid => 500

/-- Outcome of the POST /predict/batch handler. -/
inductive HttpBatch
  | ok (predictions : List (String × ℚ))
  | unprocessable
  | serviceUnavailable (detail : String)
  | internalError (detail : String)
  | responseInvalid

/-- HTTP status code of each POST /predict/batch outcome. -/
def HttpBatch.statusCode : HttpBatch → Nat
  | HttpBatch.ok _ => 200
  | HttpBatch.unprocessable => 422
  | HttpBatch.serviceUnavailable _ => 503
  | HttpBatch.internalError _ => 500
  | HttpBatch.responseInvalid => 500

/-- Embedding of the predict_sentence route: schema validation first,
then the readiness gate raising 503, then the call into the adapter,
whose exceptions become a 500 with a detail message, and whose result is
checked against the PredictionResponse score bounds. -/
def predict_sentence (e : ℚ → ℚ) (s : AdapterState) (b : RawSingleBody) : HttpSingle :=
  match validateSingle b with
  | none => HttpSingle.unprocessable
  | some sentence =>
    if is_model_loaded s then
      match predict e s sentence with
      | Except.ok (lab, sc) =>
        if 0 ≤ sc ∧ sc ≤ 1 then HttpSingle.ok lab sc else HttpSingle.responseInvalid
      | Except.error err =>
        HttpSingle.internalError ("Prediction failed: " ++ err.message)
    else HttpSingle.serviceUnavailable "Model not loaded"

/-- Embedding of the predict_batch_sentences route, mirroring the single
route with the batch adapter call and per-item response validation. -/
def predict_batch_sentences (e : ℚ → ℚ) (s : AdapterState) (b : RawBatchBody) : HttpBatch :=
  match validateBatch b with
  | none => HttpBatch.unprocessable
  | some xs =>
    if is_model_loaded s then
      match predict_batch e s xs with
      | Except.ok res =>
        if res.all (fun p => decide (0 ≤ p.2) && decide (p.2 ≤ 1)) then HttpBatch.ok res
        else HttpBatch.responseInvalid
      | Except.error err =>
        HttpBatch.internalError ("Batch prediction failed: " ++ err.message)
    else HttpBatch.serviceUnavailable "Model not loaded"

/-- Body of the GET /health response. -/
structure HealthResponse where
  status : String
  model_loaded : Bool

/-- Embedding of the health_check route: the status code it answers with
and its body, both total functions of the adapter state. -/
def health_check (s : AdapterState) : Nat × HealthResponse :=
  (200, ⟨if is_model_loaded s then "healthy" else "unhealthy", is_model_loaded s⟩)

/-- Operations callable against the shared adapter state once the
service is up. -/
inductive Op
  | loadOp (env : Env)
  | predictOp (sentence : String)
  | predictBatchOp (sentences : List String)
  | isLoadedOp
  | healthOp

/-- Effect of one operation on the adapter state. Only load_model writes
the module globals: the bodies of predict, predict_batch, is_model_loaded
and health_check contain no assignment to them, so those operations are
read-only by construction of the source. -/
def Op.apply (s : AdapterState) : Op → AdapterState
  | Op.loadOp env => (load_model env s).1
  | Op.predictOp _ => s
  | Op.predictBatchOp _ => s
  | Op.isLoadedOp => s
  | Op.healthOp => s

/-- Concrete tokenizer for closed instances of the theorems. -/
def tokC : Tokenizer := ⟨fun _ => [], 0⟩

/-- Concrete two-class model with constant logits for closed instances. -/
def modelC : HFModel := ⟨fun _ => [0, 1], some defaultLabelMapping⟩

/-- Concrete strictly positive softmax weight for closed instances. -/
def expC : ℚ → ℚ := fun _ => 1

/-- Environment whose fetches all succeed. -/
def envOk : Env := ⟨false, fun _ => Except.ok tokC, fun _ => Except.ok modelC, Except.ok ()⟩

/-- Environment whose tokenizer fetch raises. -/
def envTokFail : Env :=
  ⟨false, fun _ => Except.error "fetch failed", fun _ => Except.ok modelC, Except.ok ()⟩

/-- Environment where moving the model to the device raises. -/
def envMoveFail : Env :=
  ⟨false, fun _ => Except.ok tokC, fun _ => Except.ok modelC, Except.error "device move failed"⟩

/-- Concrete fully loaded adapter state. -/
def stateC : AdapterState := loadedState modelC tokC Device.cpu defaultLabelMapping

/-! Helper lemmas about the list-level building blocks. -/

lemma getD_idxOfQ (l : List ℚ) (a : ℚ) (h : a ∈ l) : l.getD (idxOfQ a l) 0 = a := by
  induction l with
  | nil => cases h
  | cons x xs ih =>
    by_cases hx : x = a
    · simp [idxOfQ, hx]
    · have hmem : a ∈ xs := by
        rcases List.mem_cons.mp h with h1 | h1
        · exact absurd h1.symm hx
        · exact h1
      simp only [idxOfQ, hx, if_false, List.getD_cons_succ]
      exact ih hmem

lemma foldl_max_mem (xs : List ℚ) (a : ℚ) : xs.foldl max a = a ∨ xs.foldl max a ∈ xs := by
  induction xs generalizing a with
  | nil => exact Or.inl rfl
  | cons y ys ih =>
    rw [List.foldl_cons]
    rcases ih (max a y) with h | h
    · rcases max_choice a y with hm | hm
      · exact Or.inl (by rw [h, hm])
      · exact Or.inr (by rw [h, hm]; exact List.mem_cons_self y ys)
    · exact Or.inr (List.mem_cons_of_mem y h)

lemma init_le_foldl_max (xs : List ℚ) (a : ℚ) : a ≤ xs.foldl max a := by
  induction xs generalizing a with
  | nil => exact le_refl a
  | cons y ys ih =>
    rw [List.foldl_cons]
    exact le_trans (le_max_left a y) (ih (max a y))

lemma mem_le_foldl_max (xs : List ℚ) (a b : ℚ) (h : b ∈ xs) : b ≤ xs.foldl max a := by
  induction xs generalizing a with
  | nil => cases h
  | cons y ys ih =>
    rw [List.foldl_cons]
    rcases List.mem_cons.mp h with h1 | h1
    · subst h1
      exact le_trans (le_max_right a b) (init_le_foldl_max ys (max a b))
    · exact ih (max a y) h1

lemma maxVal_mem (l : List ℚ) (h : l ≠ []) : maxVal l ∈ l := by
  cases l with
  | nil => exact absurd rfl h
  | cons x xs =>
    show xs.foldl max x ∈ x :: xs
    rcases foldl_max_mem xs x with h1 | h1
    · rw [h1]; exact List.mem_cons_self x xs
    · exact List.mem_cons_of_mem x h1

lemma le_maxVal (l : List ℚ) (a : ℚ) (h : a ∈ l) : a ≤ maxVal l := by
  cases l with
  | nil => cases h
  | cons x xs =>
    show a ≤ xs.foldl max x
    rcases List.mem_cons.mp h with h1 | h1
    · subst h1; exact init_le_foldl_max xs a
    · exact mem_le_foldl_max xs x a h1

lemma getD_argmax_eq_maxVal (l : List ℚ) (h : l ≠ []) :
    l.getD (argmaxIdx l) 0 = maxVal l :=
  getD_idxOfQ l (maxVal l) (maxVal_mem l h)

lemma sum_map_div (l : List ℚ) (f : ℚ → ℚ) (c : ℚ) :
    (l.map (fun x => f x / c)).sum = (l.map f).sum / c := by
  induction l with
  | nil => simp
  | cons x xs ih => simp [ih, add_div]

lemma weight_sum_pos (e : ℚ → ℚ) (he : ∀ q, 0 < e q) (l : List ℚ) (h : l ≠ []) :
    0 < (l.map e).sum := by
  refine List.sum_pos _ (fun a ha => ?_) (by simpa using h)
  rcases List.mem_map.mp ha with ⟨x, _, rfl⟩
  exact he x

lemma softmax_ne_nil (e : ℚ → ℚ) (l : List ℚ) (h : l ≠ []) : softmax e l ≠ [] := by
  simp [softmax, h]

lemma softmax_sum_eq_one (e : ℚ → ℚ) (he : ∀ q, 0 < e q) (l : List ℚ) (h : l ≠ []) :
    (softmax e l).sum = 1 := by
  have hpos := weight_sum_pos e he l h
  rw [softmax, sum_map_div]
  exact div_self (ne_of_gt hpos)

lemma softmax_mem_bounds (e : ℚ → ℚ) (he : ∀ q, 0 < e q) (l : List ℚ) (y : ℚ)
    (hy : y ∈ softmax e l) : 0 < y ∧ y ≤ 1 := by
  rcases List.mem_map.mp hy with ⟨x, hx, rfl⟩
  have hl : l ≠ [] := by rintro rfl; cases hx
  have hpos := weight_sum_pos e he l hl
  refine ⟨div_pos (he x) hpos, ?_⟩
  rw [div_le_one hpos]
  refine List.single_le_sum (fun a ha => ?_) _ (List.mem_map_of_mem e hx)
  rcases List.mem_map.mp ha with ⟨z, _, rfl⟩
  exact le_of_lt (he z)

lemma lookup_mem_of_eq_some (lm : List (Nat × String)) (i : Nat) (lab : String)
    (h : lm.lookup i = some lab) : (i, lab) ∈ lm := by
  induction lm with
  | nil => cases h
  | cons p rest ih =>
    rcases p with ⟨k, v⟩
    simp only [List.lookup] at h
    cases hbeq : i == k with
    | true =>
      rw [hbeq] at h
      simp at h
      subst h
      have hik : i = k := eq_of_beq hbeq
      subst hik
      exact List.mem_cons_self _ _
    | false =>
      rw [hbeq] at h
      simp at h
      exact List.mem_cons_of_mem _ (ih h)

/-! Helper lemmas about the embedded adapter functions. -/

lemma tokenizeBatch_single (tok : Tokenizer) (x : String) :
    tok.tokenizeBatch [x] = [tok.encodeTrunc x] := by
  simp [Tokenizer.tokenizeBatch, padTo]

lemma predict_loaded (m : HFModel) (tok : Tokenizer) (d : Device) (lm : List (Nat × String))
    (e : ℚ → ℚ) (x : String) (hne : m.rowLogits (tok.encodeTrunc x) ≠ []) :
    predict e (loadedState m tok d lm) x =
      Except.ok (lookupLabel lm (argmaxIdx (singleProbs m tok e x)),
        (singleProbs m tok e x).getD (argmaxIdx (singleProbs m tok e x)) 0) := by
  have hsm := softmax_ne_nil e (m.rowLogits (tok.encodeTrunc x)) hne
  simp [predict, loadedState, tokenizeBatch_single, singleProbs, hsm]

lemma predict_batch_loaded (m : HFModel) (tok : Tokenizer) (d : Device)
    (lm : List (Nat × String)) (e : ℚ → ℚ) (xs : List String)
    (hnc : ∀ r, m.rowLogits r ≠ []) :
    predict_batch e (loadedState m tok d lm) xs =
      Except.ok ((batchProbs m tok e xs).map
        (fun p => (lookupLabel lm (argmaxIdx p), maxVal p))) := by
  have hany : (batchProbs m tok e xs).any List.isEmpty = false := by
    rw [List.any_eq_false]
    intro p hp
    rcases List.mem_map.mp hp with ⟨r, _, rfl⟩
    simp [softmax_ne_nil e (m.rowLogits r) (hnc r)]
  simp [predict_batch, loadedState, hany]

lemma load_model_of_loaded (env : Env) (s : AdapterState) (h : is_model_loaded s = true) :
    load_model env s = (s, Except.ok ()) := by
  have h1 : s._model.isSome = true := h
  simp [load_model, h1]

lemma op_apply_of_loaded (s : AdapterState) (op : Op) (h : is_model_loaded s = true) :
    Op.apply s op = s := by
  cases op with
  | loadOp env => simp [Op.apply, load_model_of_loaded env s h]
  | predictOp x => rfl
  | predictBatchOp xs => rfl
  | isLoadedOp => rfl
  | healthOp => rfl

lemma one_le_length_iff_ne_empty (s : String) : 1 ≤ s.length ↔ s ≠ "" := by
  cases s with
  | mk data =>
    simp only [String.length]
    constructor
    · intro h heq
      rw [show ("" : String) = ⟨[]⟩ from rfl] at heq
      cases heq
      simp at h
    · intro h
      rcases data with _ | ⟨c, cs⟩
      · exact absurd rfl h
      · simp

/-! Theorems settling the claims. -/

/-- Claim C4: load_model is idempotent: when a model is already cached
it returns at once leaving every global untouched, and is_model_loaded
stays true across repeated calls. -/
theorem load_model_idempotent (env : Env) (s : AdapterState)
    (h : is_model_loaded s = true) :
    load_model env s = (s, Except.ok ()) ∧
      is_model_loaded (load_model env s).1 = true := by
  have h1 := load_model_of_loaded env s h
  exact ⟨h1, by rw [h1]; exact h⟩

theorem load_model_idempotent_witness :
    load_model envOk stateC = (stateC, Except.ok ()) ∧
      is_model_loaded (load_model envOk stateC).1 = true :=
  load_model_idempotent envOk stateC rfl

/-- Claim C5: GET health always answers status code 200 and is a total
function of the state, its status field is healthy exactly when the
model is loaded and unhealthy exactly when it is not, and its
model_loaded field equals is_model_loaded. -/
theorem health_check_contract (s : AdapterState) :
    (health_check s).1 = 200 ∧
      ((health_check s).2.status = "healthy" ↔ is_model_loaded s = true) ∧
      ((health_check s).2.status = "unhealthy" ↔ is_model_loaded s = false) ∧
      (health_check s).2.model_loaded = is_model_loaded s := by
  cases hl : is_model_loaded s with
  | true => simp [health_check, hl]
  | false => simp [health_check, hl]

/-- Claim C6: invoked while the model global is unset, predict and
predict_batch both raise the not-loaded RuntimeError carrying the
message of the source, and no other failure. -/
theorem predict_unloaded_raises_not_loaded (e : ℚ → ℚ) (s : AdapterState)
    (x : String) (xs : List String) (h : is_model_loaded s = false) :
    predict e s x = Except.error PyErr.notLoaded ∧
      predict_batch e s xs = Except.error PyErr.notLoaded ∧
      PyErr.message PyErr.notLoaded = "Model not loaded. Call load_model() first." := by
  rcases s with ⟨mo, tk, de, lmap⟩
  have h1 : mo = none := by
    cases mo
    · rfl
    · simp [is_model_loaded] at h
  subst h1
  refine ⟨?_, ?_, rfl⟩
  · cases tk <;> rfl
  · cases tk <;> rfl

theorem predict_unloaded_raises_not_loaded_witness :
    predict expC initialState "chest pain" = Except.error PyErr.notLoaded ∧
      predict_batch expC initialState ["chest pain"] = Except.error PyErr.notLoaded ∧
      PyErr.message PyErr.notLoaded = "Model not loaded. Call load_model() first." :=
  predict_unloaded_raises_not_loaded expC initialState "chest pain" ["chest pain"] rfl

/-- Claim C9: once the adapter is loaded, no sequence of operations
rewrites or unsets the shared state: every trace leaves the state
literally unchanged and the service stays ready. -/
theorem loaded_state_stable_under_ops (s : AdapterState) (ops : List Op)
    (h : is_model_loaded s = true) :
    ops.foldl Op.apply s = s ∧ is_model_loaded (ops.foldl Op.apply s) = true := by
  have hfix : ops.foldl Op.apply s = s := by
    induction ops with
    | nil => rfl
    | cons op rest ih =>
      rw [List.foldl_cons, op_apply_of_loaded s op h]
      exact ih
  exact ⟨hfix, by rw [hfix]; exact h⟩

theorem loaded_state_stable_under_ops_witness :
    [Op.loadOp envOk, Op.predictOp "x", Op.healthOp].foldl Op.apply stateC = stateC ∧
      is_model_loaded
        ([Op.loadOp envOk, Op.predictOp "x", Op.healthOp].foldl Op.apply stateC) = true :=
  loaded_state_stable_under_ops stateC [Op.loadOp envOk, Op.predictOp "x", Op.healthOp] rfl

/-- Claim C1 counterexample: a failed tokenizer fetch propagates but
leaves the device global set, and a failed move of the model to the
device leaves the model global set with no label mapping, so after a
load failure the adapter is not in the fully not-loaded state and, in
the second case, a retry is impossible because the cached model makes
the next call return immediately. -/
theorem load_model_failure_retains_partial_state :
    ((load_model envTokFail initialState).2 = Except.error "fetch failed" ∧
      (load_model envTokFail initialState).1._device = some Device.cpu) ∧
    ((load_model envMoveFail initialState).2 = Except.error "device move failed" ∧
      is_model_loaded (load_model envMoveFail initialState).1 = true ∧
      (load_model envMoveFail initialState).1._label_mapping = none) :=
  ⟨⟨rfl, rfl⟩, ⟨rfl, rfl, rfl⟩⟩

/-- Claim C1 amended: when load_model fails while fetching the tokenizer
or the model, the error propagates, the model global stays unset so the
adapter still reports not loaded and a later call re-runs the load; the
globals assigned before the failing step (the device, plus the tokenizer
when the model fetch fails) are however retained rather than cleared.
When the failure happens while moving the fetched model to the device,
the model global is already set, so the adapter reports loaded while the
label mapping is still missing. -/
theorem load_model_failure_propagates_amended (env : Env) (s : AdapterState)
    (h : s._model = none) :
    (∀ msg, env.fetchTokenizer MODEL_NAME = Except.error msg →
      load_model env s =
        ({ s with _device := some (selectDevice env.cudaAvailable) }, Except.error msg) ∧
      is_model_loaded (load_model env s).1 = false) ∧
    (∀ tok msg, env.fetchTokenizer MODEL_NAME = Except.ok tok →
      env.fetchModel MODEL_NAME = Except.error msg →
      load_model env s =
        ({ s with _device := some (selectDevice env.cudaAvailable),
                  _tokenizer := some tok }, Except.error msg) ∧
      is_model_loaded (load_model env s).1 = false) ∧
    (∀ tok m msg, env.fetchTokenizer MODEL_NAME = Except.ok tok →
      env.fetchModel MODEL_NAME = Except.ok m →
      env.toDevice = Except.error msg →
      load_model env s =
        ({ s with _device := some (selectDevice env.cudaAvailable),
                  _tokenizer := some tok, _model := some m }, Except.error msg) ∧
      is_model_loaded (load_model env s).1 = true) := by
  rcases s with ⟨mo, tk, de, lmap⟩
  cases mo with
  | some m0 => cases h
  | none =>
    refine ⟨fun msg hm => ?_, fun tok msg h1 h2 => ?_, fun tok m msg h1 h2 h3 => ?_⟩
    · have hl : load_model env ⟨none, tk, de, lmap⟩ =
          (⟨none, tk, some (selectDevice env.cudaAvailable), lmap⟩, Except.error msg) := by
        simp [load_model, hm]
      exact ⟨hl, by rw [hl]; rfl⟩
    · have hl : load_model env ⟨none, tk, de, lmap⟩ =
          (⟨none, some tok, some (selectDevice env.cudaAvailable), lmap⟩, Except.error msg) := by
        simp [load_model, h1, h2]
      exact ⟨hl, by rw [hl]; rfl⟩
    · have hl : load_model env ⟨none, tk, de, lmap⟩ =
          (⟨some m, some tok, some (selectDevice env.cudaAvailable), lmap⟩, Except.error msg) := by
        simp [load_model, h1, h2, h3]
      exact ⟨hl, by rw [hl]; rfl⟩

theorem load_model_failure_propagates_amended_witness :
    load_model envTokFail initialState =
      ({ initialState with _device := some (selectDevice envTokFail.cudaAvailable) },
        Except.error "fetch failed") ∧
      is_model_loaded (load_model envTokFail initialState).1 = false :=
  (load_model_failure_propagates_amended envTokFail initialState rfl).1 "fetch failed" rfl

/-- Claim C7: the class-index-to-label lookup is total: every index
resolves either to a pair of the mapping or to the UNKNOWN fallback
string, and on a loaded adapter whose model has at least one output
class, predict and predict_batch succeed with labels produced by this
lookup, which never fails. -/
theorem label_lookup_total (m : HFModel) (tok : Tokenizer) (d : Device)
    (lm : List (Nat × String)) (e : ℚ → ℚ) (x : String) (xs : List String)
    (hnc : ∀ r, m.rowLogits r ≠ []) :
    (∀ idx, (idx, lookupLabel lm idx) ∈ lm ∨
      (lookupLabel lm idx = "UNKNOWN_" ++ toString idx ∧ lm.lookup idx = none)) ∧
    (∃ idx sc, predict e (loadedState m tok d lm) x = Except.ok (lookupLabel lm idx, sc)) ∧
    (∃ res, predict_batch e (loadedState m tok d lm) xs = Except.ok res ∧
      ∀ pr ∈ res, ∃ idx, pr.1 = lookupLabel lm idx) := by
  refine ⟨fun idx => ?_, ?_, ?_⟩
  · cases hcase : lm.lookup idx with
    | some lab =>
      left
      have : lookupLabel lm idx = lab := by simp [lookupLabel, hcase]
      rw [this]
      exact lookup_mem_of_eq_some lm idx lab hcase
    | none =>
      right
      exact ⟨by simp [lookupLabel, hcase], rfl⟩
  · exact ⟨argmaxIdx (singleProbs m tok e x),
      (singleProbs m tok e x).getD (argmaxIdx (singleProbs m tok e x)) 0,
      predict_loaded m tok d lm e x (hnc _)⟩
  · refine ⟨_, predict_batch_loaded m tok d lm e xs hnc, fun pr hpr => ?_⟩
    rcases List.mem_map.mp hpr with ⟨p, _, rfl⟩
    exact ⟨argmaxIdx p, rfl⟩

theorem label_lookup_total_witness :
    (∀ idx, (idx, lookupLabel defaultLabelMapping idx) ∈ defaultLabelMapping ∨
      (lookupLabel defaultLabelMapping idx = "UNKNOWN_" ++ toString idx ∧
        defaultLabelMapping.lookup idx = none)) ∧
    (∃ idx sc, predict expC (loadedState modelC tokC Device.cpu defaultLabelMapping) "a" =
      Except.ok (lookupLabel defaultLabelMapping idx, sc)) ∧
    (∃ res, predict_batch expC (loadedState modelC tokC Device.cpu defaultLabelMapping) ["a"] =
      Except.ok res ∧ ∀ pr ∈ res, ∃ idx, pr.1 = lookupLabel defaultLabelMapping idx) :=
  label_lookup_total modelC tokC Device.cpu defaultLabelMapping expC "a" ["a"]
    (fun _ => List.cons_ne_nil _ _)

/-- Claim C8: on a loaded adapter whose model has at least one output
class and with a strictly positive softmax weight, the confidence of
predict is the maximum of the softmax row of the sentence, that maximum
lies in the closed unit interval, the softmax row sums exactly to one,
and every score of predict_batch is likewise the maximum of a softmax
row summing to one and lies in the unit interval. -/
theorem score_is_max_softmax (m : HFModel) (tok : Tokenizer) (d : Device)
    (lm : List (Nat × String)) (e : ℚ → ℚ) (x : String) (xs : List String)
    (he : ∀ q, 0 < e q) (hnc : ∀ r, m.rowLogits r ≠ []) :
    (∃ lab, predict e (loadedState m tok d lm) x =
      Except.ok (lab, maxVal (singleProbs m tok e x))) ∧
    (0 ≤ maxVal (singleProbs m tok e x) ∧ maxVal (singleProbs m tok e x) ≤ 1) ∧
    (singleProbs m tok e x).sum = 1 ∧
    (∃ res, predict_batch e (loadedState m tok d lm) xs = Except.ok res ∧
      ∀ pr ∈ res, ∃ probs, probs ∈ batchProbs m tok e xs ∧ pr.2 = maxVal probs ∧
        probs.sum = 1 ∧ 0 ≤ pr.2 ∧ pr.2 ≤ 1) := by
  have hsing : singleProbs m tok e x ≠ [] :=
    softmax_ne_nil e (m.rowLogits (tok.encodeTrunc x)) (hnc _)
  have hmax := softmax_mem_bounds e he (m.rowLogits (tok.encodeTrunc x))
    (maxVal (singleProbs m tok e x)) (maxVal_mem _ hsing)
  refine ⟨?_, ⟨le_of_lt hmax.1, hmax.2⟩, ?_, ?_⟩
  · refine ⟨lookupLabel lm (argmaxIdx (singleProbs m tok e x)), ?_⟩
    rw [predict_loaded m tok d lm e x (hnc _), getD_argmax_eq_maxVal _ hsing]
  · exact softmax_sum_eq_one e he _ (hnc _)
  · refine ⟨_, predict_batch_loaded m tok d lm e xs hnc, fun pr hpr => ?_⟩
    rcases List.mem_map.mp hpr with ⟨p, hp, rfl⟩
    have hpmem := hp
    rcases List.mem_map.mp hp with ⟨r, _, rfl⟩
    have hne := softmax_ne_nil e (m.rowLogits r) (hnc r)
    have hb := softmax_mem_bounds e he (m.rowLogits r) _ (maxVal_mem _ hne)
    exact ⟨_, hpmem, rfl, softmax_sum_eq_one e he _ (hnc r), le_of_lt hb.1, hb.2⟩

theorem score_is_max_softmax_witness :
    (∃ lab, predict expC (loadedState modelC tokC Device.cpu defaultLabelMapping) "a" =
      Except.ok (lab, maxVal (singleProbs modelC tokC expC "a"))) ∧
    (0 ≤ maxVal (singleProbs modelC tokC expC "a") ∧
      maxVal (singleProbs modelC tokC expC "a") ≤ 1) ∧
    (singleProbs modelC tokC expC "a").sum = 1 ∧
    (∃ res, predict_batch expC (loadedState modelC tokC Device.cpu defaultLabelMapping) ["a"] =
      Except.ok res ∧
      ∀ pr ∈ res, ∃ probs, probs ∈ batchProbs modelC tokC expC ["a"] ∧ pr.2 = maxVal probs ∧
        probs.sum = 1 ∧ 0 ≤ pr.2 ∧ pr.2 ≤ 1) :=
  score_is_max_softmax modelC tokC Device.cpu defaultLabelMapping expC "a" ["a"]
    (fun _ => one_pos) (fun _ => List.cons_ne_nil _ _)

/-- Claim C2: on a loaded adapter, batch prediction of a nonempty list
of sentences succeeds with one output per input in input order, the
label at each position equals the label of the single prediction of the
sentence at that position, and every batch score lies in the closed
unit interval. The opaque model is assumed to have at least one output
class, the softmax weight to be strictly positive, and right padding
with the pad token not to change the argmax of a row, which is the
attention-mask property the spec presupposes when it allows batch
scores to differ from single scores under batched padding. -/
theorem predict_batch_agrees_with_predict (m : HFModel) (tok : Tokenizer) (d : Device)
    (lm : List (Nat × String)) (e : ℚ → ℚ) (xs : List String)
    (he : ∀ q, 0 < e q) (hnc : ∀ r, m.rowLogits r ≠ [])
    (hpad : ∀ row n,
      argmaxIdx (softmax e (m.rowLogits (row ++ List.replicate n tok.padId))) =
        argmaxIdx (softmax e (m.rowLogits row)))
    (hxs : xs ≠ []) :
    ∃ res, predict_batch e (loadedState m tok d lm) xs = Except.ok res ∧
      res.length = xs.length ∧
      (∀ i, ∀ hi : i < xs.length,
        ∀ hr : i < ((batchProbs m tok e xs).map
          (fun p => (lookupLabel lm (argmaxIdx p), maxVal p))).length,
        ∃ sc, predict e (loadedState m tok d lm) (xs.get ⟨i, hi⟩) =
          Except.ok ((((batchProbs m tok e xs).map
            (fun p => (lookupLabel lm (argmaxIdx p), maxVal p))).get ⟨i, hr⟩).1, sc)) ∧
      (∀ pr ∈ res, 0 ≤ pr.2 ∧ pr.2 ≤ 1) := by
  refine ⟨_, predict_batch_loaded m tok d lm e xs hnc, ?_, ?_, ?_⟩
  · simp [batchProbs, Tokenizer.tokenizeBatch]
  · intro i hi hr
    refine ⟨(singleProbs m tok e (xs.get ⟨i, hi⟩)).getD
      (argmaxIdx (singleProbs m tok e (xs.get ⟨i, hi⟩))) 0, ?_⟩
    rw [predict_loaded m tok d lm e _ (hnc _)]
    have key : ((((batchProbs m tok e xs).map
        (fun p => (lookupLabel lm (argmaxIdx p), maxVal p))).get ⟨i, hr⟩).1) =
        lookupLabel lm (argmaxIdx (singleProbs m tok e (xs.get ⟨i, hi⟩))) := by
      simp only [List.get_eq_getElem, List.getElem_map, batchProbs,
        Tokenizer.tokenizeBatch, padTo, singleProbs]
      rw [hpad]
    rw [key]
  · intro pr hpr
    rcases List.mem_map.mp hpr with ⟨p, hp, rfl⟩
    rcases List.mem_map.mp hp with ⟨row, _, rfl⟩
    have hne := softmax_ne_nil e (m.rowLogits row) (hnc row)
    have hb := softmax_mem_bounds e he (m.rowLogits row) _ (maxVal_mem _ hne)
    exact ⟨le_of_lt hb.1, hb.2⟩

theorem predict_batch_agrees_with_predict_witness :
    ∃ res, predict_batch expC (loadedState modelC tokC Device.cpu defaultLabelMapping)
        ["a", "bb"] = Except.ok res ∧
      res.length = (["a", "bb"] : List String).length ∧
      (∀ i, ∀ hi : i < (["a", "bb"] : List String).length,
        ∀ hr : i < ((batchProbs modelC tokC expC ["a", "bb"]).map
          (fun p => (lookupLabel defaultLabelMapping (argmaxIdx p), maxVal p))).length,
        ∃ sc, predict expC (loadedState modelC tokC Device.cpu defaultLabelMapping)
            ((["a", "bb"] : List String).get ⟨i, hi⟩) =
          Except.ok ((((batchProbs modelC tokC expC ["a", "bb"]).map
            (fun p => (lookupLabel defaultLabelMapping (argmaxIdx p), maxVal p))).get
              ⟨i, hr⟩).1, sc)) ∧
      (∀ pr ∈ res, 0 ≤ pr.2 ∧ pr.2 ≤ 1) :=
  predict_batch_agrees_with_predict modelC tokC Device.cpu defaultLabelMapping expC
    ["a", "bb"] (fun _ => one_pos) (fun _ => List.cons_ne_nil _ _) (fun _ _ => rfl)
    (by simp)

/-- Claim C3: the POST predict route answers 422 when the sentence field
is absent or empty, before the adapter is consulted; 503 when the model
is not loaded; 200 with the label and score when the adapter succeeds
with a score inside the unit interval; and 500 carrying a detail message
when the adapter raises. -/
theorem predict_endpoint_status_contract (e : ℚ → ℚ) (s : AdapterState)
    (b : RawSingleBody) :
    (b.sentence = none →
      predict_sentence e s b = HttpSingle.unprocessable ∧
        (predict_sentence e s b).statusCode = 422) ∧
    (b.sentence = some "" →
      predict_sentence e s b = HttpSingle.unprocessable ∧
        (predict_sentence e s b).statusCode = 422) ∧
    (∀ x, b.sentence = some x → x ≠ "" → is_model_loaded s = false →
      predict_sentence e s b = HttpSingle.serviceUnavailable "Model not loaded" ∧
        (predict_sentence e s b).statusCode = 503) ∧
    (∀ x lab sc, b.sentence = some x → x ≠ "" → is_model_loaded s = true →
      predict e s x = Except.ok (lab, sc) → 0 ≤ sc → sc ≤ 1 →
      predict_sentence e s b = HttpSingle.ok lab sc ∧
        (predict_sentence e s b).statusCode = 200) ∧
    (∀ x err, b.sentence = some x → x ≠ "" → is_model_loaded s = true →
      predict e s x = Except.error err →
      predict_sentence e s b =
        HttpSingle.internalError ("Prediction failed: " ++ err.message) ∧
        (predict_sentence e s b).statusCode = 500) := by
  refine ⟨fun hb => ?_, fun hb => ?_, fun x hb hx hl => ?_,
    fun x lab sc hb hx hl hp h0 h1 => ?_, fun x err hb hx hl hp => ?_⟩
  · have hv : validateSingle b = none := by simp [validateSingle, hb]
    constructor <;> simp [predict_sentence, hv, HttpSingle.statusCode]
  · have hv : validateSingle b = none := by
      simp [validateSingle, hb]
    constructor <;> simp [predict_sentence, hv, HttpSingle.statusCode]
  · have hv : validateSingle b = some x := by
      simp [validateSingle, hb, (one_le_length_iff_ne_empty x).mpr hx]
    constructor <;> simp [predict_sentence, hv, hl, HttpSingle.statusCode]
  · have hv : validateSingle b = some x := by
      simp [validateSingle, hb, (one_le_length_iff_ne_empty x).mpr hx]
    constructor <;> simp [predict_sentence, hv, hl, hp, h0, h1, HttpSingle.statusCode]
  · have hv : validateSingle b = some x := by
      simp [validateSingle, hb, (one_le_length_iff_ne_empty x).mpr hx]
    constructor <;> simp [predict_sentence, hv, hl, hp, HttpSingle.statusCode]

theorem predict_endpoint_status_contract_witness :
    predict_sentence expC initialState ⟨none⟩ = HttpSingle.unprocessable ∧
      (predict_sentence expC initialState ⟨none⟩).statusCode = 422 :=
  (predict_endpoint_status_contract expC initialState ⟨none⟩).1 rfl

/-- Claim C10: the batch schema constrains only the length of the list,
so a nonempty list containing empty strings passes validation and is
handed unchanged to predict_batch, whose accepted result the route
returns; the single route instead rejects an empty sentence with 422
before the adapter is reached. -/
theorem batch_schema_allows_empty_elements (e : ℚ → ℚ) (s : AdapterState)
    (xs : List String) (hne : xs ≠ []) (hmem : "" ∈ xs) :
    validateBatch ⟨some xs⟩ = some xs ∧
    (∀ res, is_model_loaded s = true → predict_batch e s xs = Except.ok res →
      res.all (fun p => decide (0 ≤ p.2) && decide (p.2 ≤ 1)) = true →
      predict_batch_sentences e s ⟨some xs⟩ = HttpBatch.ok res) ∧
    predict_sentence e s ⟨some ""⟩ = HttpSingle.unprocessable := by
  have hlen : 1 ≤ xs.length := List.length_pos.mpr hne
  have hv : validateBatch ⟨some xs⟩ = some xs := by simp [validateBatch, hlen]
  refine ⟨hv, fun res hl hp hall => ?_, ?_⟩
  · simp [predict_batch_sentences, hv, hl, hp, hall]
  · have hv1 : validateSingle ⟨some ""⟩ = none := by simp [validateSingle]
    simp [predict_sentence, hv1]

theorem batch_schema_allows_empty_elements_witness :
    validateBatch ⟨some [""]⟩ = some [""] ∧
    (∀ res, is_model_loaded stateC = true →
      predict_batch expC stateC [""] = Except.ok res →
      res.all (fun p => decide (0 ≤ p.2) && decide (p.2 ≤ 1)) = true →
      predict_batch_sentences expC stateC ⟨some [""]⟩ = HttpBatch.ok res) ∧
    predict_sentence expC stateC ⟨some ""⟩ = HttpSingle.unprocessable :=
  batch_schema_allows_empty_elements expC stateC [""] (by simp) (by simp)

end ClinicalBert
